import Mathlib

/-
Verification development for the extraction-and-guardrail pipeline of the
ai-lead-response-assistant backend.  Text is modelled as `List Char`
(Python `str` restricted to its ASCII behaviour: `str.lower`, `\w`, `\b`
and `str.strip` are modelled on ASCII characters, which is the alphabet
of every fixed pattern, marker and message in the source).
-/

namespace LeadAssist

set_option maxRecDepth 8000

/-! # Definitions (shallow embedding of the source) -/

/-- Lower-casing of a single character (ASCII, like `str.lower` on ASCII). -/
def lc (c : Char) : Char := c.toLower

/-- Lower-casing of a text (Python `str.lower` restricted to ASCII). -/
def lcL (l : List Char) : List Char := l.map lc

/-- Word characters of the regex class `\w` (ASCII part): letters, digits, underscore. -/
def wordChar (c : Char) : Bool := c.isAlpha || c.isDigit || c == '_'

/-- Whitespace (Python `str.strip` / regex `\s`, ASCII part). -/
def isWs (c : Char) : Bool := c == ' ' || c == '\t' || c == '\n' || c == '\r'

/-- Python `str.strip`: drop leading and trailing whitespace. -/
def pyStrip (l : List Char) : List Char :=
  ((l.dropWhile isWs).reverse.dropWhile isWs).reverse

/-- The apostrophe character, U+0027. -/
def apos : Char := Char.ofNat 39

/-- Left curly brace. -/
def lbrace : Char := Char.ofNat 123

/-- Right curly brace. -/
def rbrace : Char := Char.ofNat 125

/-- Regex word boundary `\b` at the start of a pattern whose first char is a
word char: holds iff the preceding char (if any) is not a word char. -/
def bb : Option Char → Bool
  | none => true
  | some c => !wordChar c

/-- Regex word boundary between a last matched char and the rest of the text:
a boundary holds iff the word-char classes differ (or at end of text, iff the
last char is a word char). -/
def bAfter (lastc : Char) (rest : List Char) : Bool :=
  match rest with
  | [] => wordChar lastc
  | d :: _ => wordChar lastc != wordChar d

/-- Case-insensitive literal match of a (lower-case) pattern against a prefix
of the text. -/
def matchPat : List Char → List Char → Bool
  | [], _ => true
  | _ :: _, [] => false
  | a :: ps, c :: cs => (lc c == a) && matchPat ps cs

/-- One rewrite rule of `_soften_guarantees`: a `\b`-anchored lower-case
literal pattern; `optDot` marks the two long patterns that end in `\.?`
instead of a closing `\b`. -/
structure Rule where
  pat : List Char
  optDot : Bool
  repl : List Char

/-- Length of the match of `r` at the start of `l` (with the pattern-final
`\b` or greedy `\.?` of the source regexes), or `none`. -/
def matchLen (r : Rule) (l : List Char) : Option Nat :=
  if r.pat.isEmpty then none
  else if matchPat r.pat l then
    if r.optDot then
      some (r.pat.length + (if (l.drop r.pat.length).head? = some '.' then 1 else 0))
    else
      match r.pat.getLast? with
      | some lastc => if bAfter lastc (l.drop r.pat.length) then some r.pat.length else none
      | none => none
  else none

/-- The character preceding position `n` in `l` (falling back to the char
preceding `l` itself when `n = 0`): the look-behind context used by `\b`
after `re.sub` has consumed `n` characters of `l`. -/
def prevAfter (prev : Option Char) (l : List Char) (n : Nat) : Option Char :=
  match (l.take n).getLast? with
  | some c => some c
  | none => prev

/-- The scan of Python `re.sub(pattern, repl, text, flags=re.IGNORECASE)` for
one rule: left-to-right, non-overlapping matches found in the original text,
each replaced by `r.repl`; `prev` is the original character preceding `l`.
The fuel argument only enables structural recursion; any `l.length ≤ fuel`
behaves identically (each step consumes at least one character). -/
def subAux (r : Rule) : Nat → Option Char → List Char → List Char
  | _, _, [] => []
  | 0, _, l => l
  | fuel + 1, prev, c :: cs =>
    match matchLen r (c :: cs) with
    | some n =>
        if bb prev then
          r.repl ++ subAux r fuel (prevAfter prev (c :: cs) n) ((c :: cs).drop n)
        else
          c :: subAux r fuel (some c) cs
    | none => c :: subAux r fuel (some c) cs

/-- `re.sub` for one rule over a whole text. -/
def subRe (r : Rule) (l : List Char) : List Char := subAux r l.length none l

/-- Whether the rule matches anywhere in `l` (with `prev` the char before `l`). -/
def hasM (r : Rule) (prev : Option Char) (l : List Char) : Bool :=
  match l with
  | [] => false
  | c :: cs => (bb prev && (matchLen r l).isSome) || hasM r (some c) cs

/-! ## Side conditions for the idempotence of the rule table

`agreeB p v` holds when one of `p`, `v` is a prefix of the other — the
shape a pattern occurrence must have to overlap a freshly inserted
replacement copy.  `afB pat repl` states that no non-empty suffix of the
pattern agrees with the (lower-cased) replacement; `innerOKB pat repl`
states that at every interior split of the replacement, either the
preceding character is a word character (so `\b` cannot hold there) or the
pattern does not agree with the remaining suffix. -/

def headWordB : List Char → Bool
  | [] => false
  | c :: _ => wordChar c

def lastWordB (l : List Char) : Bool :=
  match l.getLast? with
  | some c => wordChar c
  | none => false

def agreeB (p v : List Char) : Bool := p.isPrefixOf v || v.isPrefixOf p

def afB : List Char → List Char → Bool
  | [], _ => true
  | a :: ps, repl => !agreeB (a :: ps) (lcL repl) && afB ps repl

def innerOKB (pat : List Char) : List Char → Bool
  | [] => true
  | a :: w => (wordChar a || !agreeB pat (lcL w)) && innerOKB pat w

/-- The decidable conditions under which substituting rule `rj` can neither
create nor leave a match of rule `ri` (both rules plain `\b`-anchored). -/
def PairCond (ri rj : Rule) : Bool :=
  afB ri.pat rj.repl && innerOKB ri.pat rj.repl
  && headWordB rj.repl && lastWordB rj.repl && headWordB rj.pat
  && !ri.optDot && !rj.optDot
  && !ri.pat.isEmpty && !rj.pat.isEmpty

/-! ## The fixed rule table of `_soften_guarantees` (guardrails.py lines 7-27) -/

def rule1 : Rule :=
  ⟨("i cannot guarantee an outcome until the team verifies the details").data, true,
   ("An inspection may help confirm the exact cause.").data⟩

def rule2 : Rule :=
  ⟨("i can").data ++ [apos] ++ ("t guarantee an outcome until the team verifies the details").data,
   true,
   ("An inspection may help confirm the exact cause.").data⟩

def rule3 : Rule := ⟨("guarantee").data, false, ("commit").data⟩

def rule4 : Rule := ⟨("definitely").data, false, ("likely").data⟩

def rule5 : Rule := ⟨("for sure").data, false, ("as appropriate").data⟩

def rule6 : Rule := ⟨("100%").data, false, ("to the best of our assessment").data⟩

def rule7 : Rule := ⟨("will be fixed").data, false, ("can be investigated and addressed").data⟩

def rule8 : Rule := ⟨("is fixed").data, false, ("appears to be addressed").data⟩

def softenRules : List Rule := [rule1, rule2, rule3, rule4, rule5, rule6, rule7, rule8]

/-- `_soften_guarantees`: the ordered rewrites applied to the whole text. -/
def soften_guarantees (l : List Char) : List Char :=
  softenRules.foldl (fun t r => subRe r t) l

/-! ## `_remove_unverified_resolution_claims` (guardrails.py lines 30-55) -/

/-- The fixed risky-marker set. -/
def riskyMarkers : List (List Char) :=
  [("already resolved").data, ("issue has been fixed").data, ("we fixed").data,
   ("refund has been issued").data, ("technician has been dispatched").data,
   ("your case is closed").data]

/-- Python `needle in haystack` on strings: contiguous substring test. -/
def subIn (m : List Char) : List Char → Bool
  | [] => m.isEmpty
  | c :: t => m.isPrefixOf (c :: t) || subIn m t

/-- Terminal punctuation of the sentence splitter. -/
def isTerm (c : Char) : Bool := c == '.' || c == '!' || c == '?'

/-- `re.split(r"(?<=[.!?])\s+", text)`: pieces between maximal whitespace runs
that are preceded by terminal punctuation.  `prev` is the previous character,
`cur` the (reversed) piece being accumulated; the fuel argument only enables
structural recursion (any `l.length ≤ fuel` behaves identically). -/
def splitAux : Nat → Option Char → List Char → List Char → List (List Char)
  | _, _, cur, [] => [cur.reverse]
  | 0, _, cur, l => [cur.reverse ++ l]
  | fuel + 1, prev, cur, c :: cs =>
    if isWs c && (prev.elim false isTerm) then
      cur.reverse :: splitAux fuel none [] (cs.dropWhile isWs)
    else
      splitAux fuel (some c) (c :: cur) cs

/-- Sentence splitting used by the guardrail: split on `(?<=[.!?])\s+`. -/
def splitSentences (l : List Char) : List (List Char) := splitAux l.length none [] l

/-- Whether a sentence contains a risky marker (case-insensitive substring). -/
def riskyB (s : List Char) : Bool :=
  riskyMarkers.any (fun m => subIn m (lcL s))

/-- Whether the evidence blob contains at least one risky marker
(case-insensitive substring). -/
def evidenceHasMarker (ctx : List Char) : Bool :=
  riskyMarkers.any (fun m => subIn m (lcL ctx))

/-- The list of sentences of (stripped) `text` retained by
`_remove_unverified_resolution_claims`. -/
def retainedSentences (text ctx : List Char) : List (List Char) :=
  (splitSentences (pyStrip text)).filter (fun s => !riskyB s || evidenceHasMarker ctx)

/-- `" ".join`-style reassembly. -/
def joinSpace (ls : List (List Char)) : List Char := (ls.intersperse [' ']).flatten

/-- `_remove_unverified_resolution_claims text context_blob`. -/
def remove_unverified_resolution_claims (text ctx : List Char) : List Char :=
  pyStrip (joinSpace (retainedSentences text ctx))

/-! ## JSON-shaped Python values -/

/-- JSON-shaped Python values as produced by `json.loads`: `None`, booleans,
integers, floats (kept as their source lexeme), strings, lists, dicts. -/
inductive J where
  | null : J
  | bool (b : Bool) : J
  | int (n : Int) : J
  | float (lex : List Char) : J
  | str (s : List Char) : J
  | arr (xs : List J) : J
  | obj (kvs : List (List Char × J)) : J

/-- Python `repr` of a string (the common ASCII case: single quotes unless the
string contains a single quote and no double quote; escaping of the backslash,
the quote character, and newline/carriage-return/tab). -/
def pyReprStr (s : List Char) : List Char :=
  let q : Char := if s.contains apos && !s.contains '"' then '"' else apos
  let esc : Char → List Char := fun c =>
    if c = '\\' then ['\\', '\\']
    else if c = q then ['\\', q]
    else if c = '\n' then ['\\', 'n']
    else if c = '\r' then ['\\', 'r']
    else if c = '\t' then ['\\', 't']
    else [c]
  q :: (s.flatMap esc) ++ [q]

/-- `", ".join`. -/
def joinComma (ls : List (List Char)) : List Char := (ls.intersperse [',', ' ']).flatten

mutual

/-- Python `repr` of a JSON-shaped value (as used by `str()` on containers). -/
def pyRepr : J → List Char
  | J.null => ("None").data
  | J.bool true => ("True").data
  | J.bool false => ("False").data
  | J.int n => (toString n).data
  | J.float lex => lex
  | J.str s => pyReprStr s
  | J.arr xs => '[' :: (joinComma (pyReprList xs)) ++ [']']
  | J.obj kvs => lbrace :: (joinComma (pyReprPairs kvs)) ++ [rbrace]

def pyReprList : List J → List (List Char)
  | [] => []
  | x :: xs => pyRepr x :: pyReprList xs

def pyReprPairs : List (List Char × J) → List (List Char)
  | [] => []
  | (k, v) :: kvs => (pyReprStr k ++ ':' :: ' ' :: pyRepr v) :: pyReprPairs kvs

end

/-- Python `str()` of a JSON-shaped value: like `repr` except that strings are
rendered without quotes. -/
def pyStr : J → List Char
  | J.str s => s
  | v => pyRepr v

/-! ## `StructuredExtraction` (schemas.py lines 28-61) -/

/-- The sentinel `"Not Available"`. -/
def NA : List Char := ("Not Available").data

/-- The normalized extraction record. -/
structure Extraction where
  issue_type : List Char
  location : List Char
  trigger : List Char
  urgency : List Char
  missing_information : List (List Char)

/-- `normalize_text_fields` (mode="before"): `None` and blank collapse to the
sentinel, any other value is `str(value).strip()`. -/
def normalize_text_fields (v : J) : List Char :=
  match v with
  | J.null => NA
  | v =>
    let t := pyStrip (pyStr v)
    if t.isEmpty then NA else t

/-- `normalize_missing_information` (mode="before"). -/
def normalize_missing_information (v : J) : List (List Char) :=
  match v with
  | J.null => [NA]
  | J.str s =>
      let c := pyStrip s
      if c.isEmpty then [NA] else [c]
  | J.arr xs =>
      let cleaned := xs.filterMap (fun x =>
        let t := pyStrip (pyStr x)
        if t.isEmpty then none else some t)
      if cleaned.isEmpty then [NA] else cleaned
  | _ => [NA]

/-- Validation error categories of `StructuredExtraction.model_validate`. -/
inductive VErr where
  | notADict : VErr
  | missingField : VErr

/-- Last-wins association-list lookup (Python dicts built from JSON keep the
last value bound to a repeated key). -/
def lookupJ (kvs : List (List Char × J)) (k : List Char) : Option J :=
  match kvs with
  | [] => none
  | (k0, v0) :: rest =>
    match lookupJ rest k with
    | some v => some v
    | none => if k0 = k then some v0 else none

/-- `StructuredExtraction.model_validate`: pydantic requires the four scalar
fields to be present (their `mode="before"` validators only run on supplied
values); `missing_information` has a default and may be absent. -/
def model_validate (v : J) : Except VErr Extraction :=
  match v with
  | J.obj kvs =>
    match lookupJ kvs ("issue_type").data, lookupJ kvs ("location").data,
          lookupJ kvs ("trigger").data, lookupJ kvs ("urgency").data with
    | some v1, some v2, some v3, some v4 =>
        Except.ok
          { issue_type := normalize_text_fields v1
            location := normalize_text_fields v2
            trigger := normalize_text_fields v3
            urgency := normalize_text_fields v4
            missing_information :=
              match lookupJ kvs ("missing_information").data with
              | some m => normalize_missing_information m
              | none => [NA] }
    | _, _, _, _ => Except.error VErr.missingField
  | _ => Except.error VErr.notADict

/-- `model_dump()` of the record, as the Python dict passed to the guardrail. -/
def modelDump (e : Extraction) : J :=
  J.obj
    [(("issue_type").data, J.str e.issue_type),
     (("location").data, J.str e.location),
     (("trigger").data, J.str e.trigger),
     (("urgency").data, J.str e.urgency),
     (("missing_information").data, J.arr (e.missing_information.map J.str))]

/-! ## `apply_guardrails` (guardrails.py lines 58-77) -/

/-- First fallback message (empty draft). -/
def fallback1 : List Char :=
  ("Thanks for sharing that. Based on what you described, an inspection may help confirm the exact cause and guide the next step.").data

/-- Second fallback message (everything filtered away). -/
def fallback2 : List Char :=
  ("Thanks for the update. An inspection may help confirm the exact cause and the most suitable next step.").data

/-- The combined evidence blob `f"{context_blob}\n{extracted_data}"`. -/
def combinedContext (ctx : List Char) (extracted : J) : List Char :=
  ctx ++ '\n' :: pyRepr extracted

/-- `apply_guardrails reply_text context_blob extracted_data`. -/
def apply_guardrails (reply ctx : List Char) (extracted : J) : List Char :=
  let cleaned := pyStrip reply
  if cleaned.isEmpty then fallback1
  else
    let combined := combinedContext ctx extracted
    let cleaned2 := remove_unverified_resolution_claims (soften_guarantees cleaned) combined
    if cleaned2.isEmpty then fallback2 else cleaned2

/-! ## `json.loads` (strict JSON parsing, as used by `_parse_json_object`) -/

def skipWs (l : List Char) : List Char := l.dropWhile isWs

def hexVal (c : Char) : Option Nat :=
  if c.isDigit then some (c.toNat - 48)
  else if 'a' ≤ c ∧ c ≤ 'f' then some (c.toNat - 87)
  else if 'A' ≤ c ∧ c ≤ 'F' then some (c.toNat - 55)
  else none

/-- Body of a JSON string after the opening quote: returns the decoded
content and the rest after the closing quote (fuel-indexed structural
recursion; any `l.length ≤ fuel` behaves identically). -/
def parseSB : Nat → List Char → Option (List Char × List Char)
  | _, [] => none
  | 0, _ :: _ => none
  | fuel + 1, c :: cs =>
    if c = '"' then some ([], cs)
    else if c = '\\' then
      match cs with
      | [] => none
      | e :: cs2 =>
        let simple : Option Char :=
          if e = '"' then some '"'
          else if e = '\\' then some '\\'
          else if e = '/' then some '/'
          else if e = 'b' then some (Char.ofNat 8)
          else if e = 'f' then some (Char.ofNat 12)
          else if e = 'n' then some '\n'
          else if e = 'r' then some '\r'
          else if e = 't' then some '\t'
          else none
        match simple with
        | some d =>
          match parseSB fuel cs2 with
          | some (s, rest) => some (d :: s, rest)
          | none => none
        | none =>
          if e = 'u' then
            match cs2 with
            | h1 :: h2 :: h3 :: h4 :: cs3 =>
              match hexVal h1, hexVal h2, hexVal h3, hexVal h4 with
              | some a, some b, some c3, some d4 =>
                match parseSB fuel cs3 with
                | some (s, rest) => some (Char.ofNat (a * 4096 + b * 256 + c3 * 16 + d4) :: s, rest)
                | none => none
              | _, _, _, _ => none
            | _ => none
          else none
    else if c.toNat < 32 then none
    else
      match parseSB fuel cs with
      | some (s, rest) => some (c :: s, rest)
      | none => none

/-- JSON string body parsing. -/
def parseStringBody (l : List Char) : Option (List Char × List Char) := parseSB l.length l

/-- Digits of a natural number literal. -/
def digitsVal (ds : List Char) : Nat := ds.foldl (fun a c => a * 10 + (c.toNat - 48)) 0

/-- JSON number: optional minus, integer part without leading zeros, optional
fraction and exponent; an integral literal becomes `J.int`, otherwise the
lexeme is kept as `J.float`. -/
def parseNumber (l : List Char) : Option (J × List Char) :=
  let (sign, l1) := match l with
    | '-' :: t => (true, t)
    | _ => (false, l)
  let intDigits := l1.takeWhile Char.isDigit
  let afterInt := l1.dropWhile Char.isDigit
  if intDigits.isEmpty then none
  else if 1 < intDigits.length ∧ intDigits.headI = '0' then none
  else
    let (fracDigits, afterFrac) :=
      match afterInt with
      | '.' :: t =>
          (t.takeWhile Char.isDigit, t.dropWhile Char.isDigit)
      | _ => ([], afterInt)
    if ((match afterInt with | '.' :: _ => true | _ => false) && fracDigits.isEmpty) = true then none
    else
      let hasExpHead := match afterFrac with
        | 'e' :: _ => true | 'E' :: _ => true | _ => false
      let afterE := match afterFrac with
        | _ :: t => if hasExpHead then t else afterFrac
        | [] => afterFrac
      let afterES := match afterE with
        | '+' :: t => t
        | '-' :: t => t
        | _ => afterE
      let expDigits := afterES.takeWhile Char.isDigit
      let afterExp := afterES.dropWhile Char.isDigit
      if hasExpHead then
        if expDigits.isEmpty then none
        else
          let lexLen := l.length - afterExp.length
          some (J.float (l.take lexLen), afterExp)
      else if fracDigits.isEmpty then
        let v : Int := Int.ofNat (digitsVal intDigits)
        some (J.int (if sign then -v else v), afterFrac)
      else
        let lexLen := l.length - afterFrac.length
        some (J.float (l.take lexLen), afterFrac)

/-- Insert a key into an assoc list the way Python dict insertion works:
an existing key keeps its position and gets the new value, a new key is
appended. -/
def insertKey (kvs : List (List Char × J)) (k : List Char) (v : J) : List (List Char × J) :=
  match kvs with
  | [] => [(k, v)]
  | (k0, v0) :: rest =>
    if k0 = k then (k0, v) :: rest else (k0, v0) :: insertKey rest k v

mutual

/-- One JSON value (fuel-indexed; the fuel only bounds nesting depth). -/
def parseVal : Nat → List Char → Option (J × List Char)
  | 0, _ => none
  | _ + 1, [] => none
  | fuel + 1, c :: cs =>
    if c = 'n' then
      if ("ull").data.isPrefixOf cs then some (J.null, cs.drop 3) else none
    else if c = 't' then
      if ("rue").data.isPrefixOf cs then some (J.bool true, cs.drop 3) else none
    else if c = 'f' then
      if ("alse").data.isPrefixOf cs then some (J.bool false, cs.drop 4) else none
    else if c = '"' then
      match parseStringBody cs with
      | some (s, rest) => some (J.str s, rest)
      | none => none
    else if c = lbrace then
      match skipWs cs with
      | d :: rest =>
        if d = rbrace then some (J.obj [], rest)
        else
          match parseMembers fuel [] (d :: rest) with
          | some (kvs, rest2) => some (J.obj kvs, rest2)
          | none => none
      | [] => none
    else if c = '[' then
      match skipWs cs with
      | d :: rest =>
        if d = ']' then some (J.arr [], rest)
        else
          match parseItems fuel (d :: rest) with
          | some (xs, rest2) => some (J.arr xs, rest2)
          | none => none
      | [] => none
    else parseNumber (c :: cs)

/-- Members of a JSON object after the opening brace (accumulating dict). -/
def parseMembers : Nat → List (List Char × J) → List Char → Option (List (List Char × J) × List Char)
  | 0, _, _ => none
  | fuel + 1, acc, l =>
    match l with
    | '"' :: cs =>
      match parseStringBody cs with
      | some (k, rest) =>
        match skipWs rest with
        | ':' :: rest2 =>
          match parseVal fuel (skipWs rest2) with
          | some (v, rest3) =>
            let acc2 := insertKey acc k v
            match skipWs rest3 with
            | ',' :: rest4 =>
              match skipWs rest4 with
              | d :: rest5 => parseMembers fuel acc2 (d :: rest5)
              | [] => none
            | d :: rest4 => if d = rbrace then some (acc2, rest4) else none
            | [] => none
          | none => none
        | _ => none
      | none => none
    | _ => none

/-- Items of a JSON array after the opening bracket. -/
def parseItems : Nat → List Char → Option (List J × List Char)
  | 0, _ => none
  | fuel + 1, l =>
    match parseVal fuel l with
    | some (v, rest) =>
      match skipWs rest with
      | ',' :: rest2 =>
        match parseItems fuel (skipWs rest2) with
        | some (xs, rest3) => some (v :: xs, rest3)
        | none => none
      | ']' :: rest2 => some ([v], rest2)
      | _ => none
    | none => none

end

/-- `json.loads`: one JSON document, with surrounding whitespace, nothing else. -/
def jsonLoads (l : List Char) : Option J :=
  match parseVal (l.length + 1) (skipWs l) with
  | some (v, rest) => if (skipWs rest).isEmpty then some v else none
  | none => none

/-! ## `_parse_json_object` (llm_service.py lines 62-84) -/

/-- The two `LLMServiceError` raises of `_parse_json_object`. -/
inductive PErr where
  | candidateDecode : PErr
  | notValidJson : PErr

def isObjJ : J → Bool
  | J.obj _ => true
  | _ => false

/-- Python `str.find`: index of the first occurrence. -/
def firstIdx (c : Char) (l : List Char) : Option Nat := l.findIdx? (· == c)

/-- Python `str.rfind`: index of the last occurrence. -/
def lastIdx (c : Char) (l : List Char) : Option Nat :=
  match (l.reverse).findIdx? (· == c) with
  | some i => some (l.length - 1 - i)
  | none => none

/-- The first attempt: strict parse of the whole (stripped) response. -/
def attemptFull (text : List Char) : Option J := jsonLoads (pyStrip text)

/-- The `raw[start : end + 1]` substring when `start = raw.find("{")` and
`end = raw.rfind("}")` both exist and `end > start`. -/
def spanCandidate (raw : List Char) : Option (List Char) :=
  match firstIdx lbrace raw, lastIdx rbrace raw with
  | some s, some e => if s < e then some ((raw.drop s).take (e - s + 1)) else none
  | _, _ => none

/-- The second attempt on the stripped text: parse of the
first-brace-to-last-brace substring (when a valid span exists). -/
def attemptSpanRaw (raw : List Char) : Option J :=
  match spanCandidate raw with
  | some cand => jsonLoads cand
  | none => none

/-- The second attempt: parse of the first-brace-to-last-brace substring
(defined only when a valid span exists). -/
def attemptSpan (text : List Char) : Option J := attemptSpanRaw (pyStrip text)

/-- The brace-span phase of `_parse_json_object` (everything after the first
`return`): locate the span, parse it, return it if it is a dict
(`isinstance(parsed, dict)`), raise on decode failure or a non-dict result. -/
def spanPhase (raw : List Char) : Except PErr J :=
  match spanCandidate raw with
  | some cand =>
    match jsonLoads cand with
    | none => Except.error PErr.candidateDecode
    | some parsed =>
        if isObjJ parsed then Except.ok parsed else Except.error PErr.notValidJson
  | none => Except.error PErr.notValidJson

/-- `_parse_json_object` (its local `raw` is the stripped response text):
strict parse of the whole text, returned when `isinstance(parsed, dict)`;
otherwise (decode failure or non-dict value) the brace-span phase. -/
def parse_json_object (text : List Char) : Except PErr J :=
  match jsonLoads (pyStrip text) with
  | some parsed =>
      if isObjJ parsed then Except.ok parsed else spanPhase (pyStrip text)
  | none => spanPhase (pyStrip text)

/-! ## `_sanitize_history` and `respond` (main.py lines 53-143) -/

/-- Python `item.get(key, "")`. -/
def getDefault (kvs : List (List Char × J)) (k : List Char) : J :=
  (lookupJ kvs k).getD (J.str [])

/-- `_sanitize_history`: keep well-formed `{role, content}` records with a
recognised role and non-blank content. -/
def sanitizeHistory : List J → List (List Char × List Char)
  | [] => []
  | item :: rest =>
    match item with
    | J.obj kvs =>
      let role := lcL (pyStrip (pyStr (getDefault kvs ("role").data)))
      let content := pyStrip (pyStr (getDefault kvs ("content").data))
      if (role = ("user").data ∨ role = ("assistant").data) ∧ ¬content.isEmpty then
        (role, content) :: sanitizeHistory rest
      else sanitizeHistory rest
    | _ => sanitizeHistory rest

/-- Python `l[-n:]`. -/
def lastN (n : Nat) (l : List (List Char × List Char)) : List (List Char × List Char) :=
  l.drop (l.length - n)

/-- The flattened `context_blob`: newline-joined `role: content` lines. -/
def contextBlob (msgs : List (List Char × List Char)) : List Char :=
  ((msgs.map (fun m => m.1 ++ ':' :: ' ' :: m.2)).intersperse ['\n']).flatten

structure ChatRequest where
  history : List J
  message : List Char

/-- The externally visible error categories of the `/respond` endpoint. -/
inductive RespErr where
  | emptyMessage : RespErr
  | llmFailure : RespErr
  | internal : RespErr

/-- The HTTP status each category is mapped to. -/
def statusCode : RespErr → Nat
  | RespErr.emptyMessage => 400
  | RespErr.llmFailure => 502
  | RespErr.internal => 500

/-- The `/respond` orchestrator, parameterised by the two OpenRouter calls
(the extraction call and the reply call), which are the only effects. -/
def respond (callExtract : List Char → Except Unit (List Char))
    (callReply : List (List Char × List Char) → List Char → J → Except Unit (List Char))
    (req : ChatRequest) : Except RespErr (List Char) :=
  let latest := pyStrip req.message
  if latest.isEmpty then Except.error RespErr.emptyMessage
  else
    let history := lastN 10 (sanitizeHistory req.history)
    let blob := contextBlob (history ++ [(("user").data, latest)])
    match callExtract blob with
    | Except.error _ => Except.error RespErr.llmFailure
    | Except.ok content =>
      match parse_json_object content with
      | Except.error _ => Except.error RespErr.llmFailure
      | Except.ok raw =>
        match model_validate raw with
        | Except.error _ => Except.error RespErr.internal
        | Except.ok structured =>
          match callReply history latest (modelDump structured) with
          | Except.error _ => Except.error RespErr.llmFailure
          | Except.ok draft => Except.ok (apply_guardrails draft blob (modelDump structured))

/-- The look-behind character at the start of the piece after `u`. -/
def prevAfterL (prev : Option Char) (u : List Char) : Option Char :=
  match u.getLast? with
  | some c => some c
  | none => prev

/-! # Claim C3 -/

/-- The scenario draft of claim C3. -/
def c3draft : List Char :=
  ("We have definitely fixed the leak, 100% guaranteed, and the refund has been issued.").data

/-- A structured-facts record with no corroborating content. -/
def c3facts : Extraction := ⟨NA, NA, NA, NA, [NA]⟩

/-! # Claim C4 -/

/-- The scenario input of claim C4: `{"issue_type": "", "missing_information": null}`. -/
def c4input : J :=
  J.obj [(("issue_type").data, J.str []), (("missing_information").data, J.null)]

/-- The amended scenario input: all four scalar keys present. -/
def c4inputAmended : J :=
  J.obj [(("issue_type").data, J.str []), (("location").data, J.null),
         (("trigger").data, J.null), (("urgency").data, J.null),
         (("missing_information").data, J.null)]

/-- A history of 12 records: 11 valid turns and one malformed record. -/
def c7history : List J :=
  (List.range 11).map (fun i =>
    J.obj [(("role").data, J.str ("user").data),
           (("content").data, J.str ('m' :: (toString i).data))])
  ++ [J.int 3]

/-! # Claims C8 and C10 -/

def isObjO : Option J → Bool
  | some v => isObjJ v
  | none => false

def isOkB : Except PErr J → Bool
  | Except.ok _ => true
  | Except.error _ => false

/-- Whether a JSON object is recoverable by either of the two attempts. -/
def recoverableB (text : List Char) : Bool :=
  isObjO (attemptFull text) || isObjO (attemptSpan text)

/-! # Theorems -/

theorem matchLen_pos {r : Rule} {l : List Char} {n : Nat} (h : matchLen r l = some n) :
    1 ≤ n ∧ r.pat.length ≤ n := by
  unfold matchLen at h
  by_cases hp : r.pat.isEmpty
  · simp [hp] at h
  · have hlen : 1 ≤ r.pat.length := by
      cases hq : r.pat with
      | nil => simp [hq, List.isEmpty] at hp
      | cons a as => simp [hq]
    simp only [hp, if_false] at h
    by_cases hm : matchPat r.pat l
    · simp only [hm, if_true] at h
      by_cases hd : r.optDot
      · simp only [hd, if_true] at h
        by_cases hdot : (l.drop r.pat.length).head? = some '.'
        · simp [hdot] at h; omega
        · simp [hdot] at h; omega
      · simp only [hd, if_false] at h
        cases hg : r.pat.getLast? with
        | none => simp [hg] at h
        | some lastc =>
            simp only [hg] at h
            by_cases hb : bAfter lastc (l.drop r.pat.length)
            · simp [hb] at h; omega
            · simp [hb] at h
    · simp [hm] at h

/-! # Supporting lemmas for the idempotence claim (C5) -/

theorem char_ofNat_toNat {n : Nat} (h : n.isValidChar) : (Char.ofNat n).toNat = n := by
  simp only [Char.ofNat, dif_pos h, Char.ofNatAux, Char.toNat, UInt32.toNat]
  simp

/-- `\w`-membership is invariant under ASCII lower-casing. -/
theorem wordChar_lc (c : Char) : wordChar (lc c) = wordChar c := by
  unfold lc wordChar Char.toLower
  by_cases h : 65 ≤ c.toNat ∧ c.toNat ≤ 90
  · rw [if_pos h]
    have hv : (Char.ofNat (c.toNat + 32)).toNat = c.toNat + 32 :=
      char_ofNat_toNat (Or.inl (by omega))
    have hlower : (Char.ofNat (c.toNat + 32)).isLower = true := by
      simp only [Char.isLower, UInt32.le_def, BitVec.le_def]
      have h2 : (Char.ofNat (c.toNat + 32)).val.toNat = c.toNat + 32 := hv
      simp_all [UInt32.toNat]
    have hupper : c.isUpper = true := by
      simp only [Char.isUpper, UInt32.le_def, BitVec.le_def]
      have h2 : c.val.toNat = c.toNat := rfl
      simp_all [UInt32.toNat, Char.toNat]
    simp [Char.isAlpha, hlower, hupper]
  · rw [if_neg h]

theorem matchPat_head {a c : Char} {ps cs : List Char}
    (h : matchPat (a :: ps) (c :: cs) = true) : lc c = a ∧ matchPat ps cs = true := by
  simp only [matchPat, Bool.and_eq_true, beq_iff_eq] at h
  exact h

theorem matchLen_nil {r : Rule} : (matchLen r []).isSome = false := by
  unfold matchLen
  cases hp : r.pat with
  | nil => simp
  | cons a ps => simp [hp, matchPat]

theorem matchLen_isSome_matchPat {r : Rule} {l : List Char}
    (h : (matchLen r l).isSome = true) : matchPat r.pat l = true := by
  unfold matchLen at h
  by_cases hp : r.pat.isEmpty
  · simp [hp] at h
  · simp only [hp, if_false] at h
    by_cases hm : matchPat r.pat l
    · exact hm
    · simp [hm] at h

theorem matchLen_isSome_eq {r : Rule} {l : List Char} (hod : r.optDot = false)
    {lastc : Char} (hg : r.pat.getLast? = some lastc) :
    (matchLen r l).isSome = (matchPat r.pat l && bAfter lastc (l.drop r.pat.length)) := by
  unfold matchLen
  have hp : r.pat.isEmpty = false := by
    cases hq : r.pat with
    | nil => rw [hq] at hg; simp at hg
    | cons a ps => simp
  simp only [hp, if_false, hod, hg]
  by_cases hm : matchPat r.pat l
  · simp only [hm, if_true, Bool.true_and]
    by_cases hb : bAfter lastc (l.drop r.pat.length) <;> simp [hb]
  · simp [hm]

theorem agreeB_nil_right (p : List Char) : agreeB p [] = true := by
  cases p <;> simp [agreeB, List.isPrefixOf]

theorem agreeB_cons {a : Char} {ps v : List Char} :
    agreeB (a :: ps) (a :: v) = agreeB ps v := by
  simp [agreeB, List.isPrefixOf]

/-- If the pattern does not agree with a (lower-cased) block, it cannot match
at the start of the block followed by anything. -/
theorem agreeBlock {p w : List Char} (t : List Char)
    (h : agreeB p (lcL w) = false) : matchPat p (w ++ t) = false := by
  induction p generalizing w with
  | nil =>
      exfalso
      have : agreeB [] (lcL w) = true := by simp [agreeB, List.isPrefixOf]
      rw [this] at h; cases h
  | cons a ps ih =>
      cases w with
      | nil =>
          exfalso
          rw [show lcL [] = [] from rfl, agreeB_nil_right] at h
          cases h
      | cons d ws =>
          by_cases hd : lc d = a
          · have hred : agreeB (a :: ps) (lcL (d :: ws)) = agreeB ps (lcL ws) := by
              have : lcL (d :: ws) = a :: lcL ws := by simp [lcL, hd]
              rw [this, agreeB_cons]
            rw [hred] at h
            simp only [List.cons_append, matchPat, Bool.and_eq_true]
            rw [show ws.append t = ws ++ t from rfl, ih h]
            simp
          · simp only [List.cons_append, matchPat]
            have : (lc d == a) = false := by simp [hd]
            rw [this]
            simp

/-- A successful pattern match consumes a block whose lower-casing is the
pattern. -/
theorem matchPat_split {p v : List Char} (h : matchPat p v = true) :
    ∃ w rest, v = w ++ rest ∧ lcL w = p := by
  induction p generalizing v with
  | nil => exact ⟨[], v, rfl, rfl⟩
  | cons a ps ih =>
      cases v with
      | nil => cases h
      | cons c cs =>
          obtain ⟨hc, hm⟩ := matchPat_head h
          obtain ⟨w, rest, hsplit, hlc⟩ := ih hm
          exact ⟨c :: w, rest, by simp [hsplit], by simp [lcL, hc, hlc, lcL] at hlc ⊢; exact hlc⟩

theorem lcL_matchPat {p w : List Char} (t : List Char) (h : lcL w = p) :
    matchPat p (w ++ t) = true := by
  subst h
  induction w with
  | nil => rfl
  | cons c ws ih =>
      show matchPat (lc c :: lcL ws) (c :: (ws ++ t)) = true
      simp only [matchPat, Bool.and_eq_true, beq_iff_eq]
      exact ⟨trivial, ih⟩

theorem innerOK_access {pat repl : List Char} (h : innerOKB pat repl = true) :
    ∀ x a w, repl = x ++ a :: w → (wordChar a || !agreeB pat (lcL w)) = true := by
  induction repl with
  | nil => intro x a w hx; exact absurd hx (by simp)
  | cons b rest ih =>
      intro x a w hx
      simp only [innerOKB, Bool.and_eq_true] at h
      cases x with
      | nil =>
          simp only [List.nil_append, List.cons.injEq] at hx
          obtain ⟨rfl, rfl⟩ := hx
          exact h.1
      | cons y ys =>
          simp only [List.cons_append, List.cons.injEq] at hx
          obtain ⟨rfl, hx2⟩ := hx
          exact ih h.2 ys a w hx2

theorem subAux_nil (r : Rule) (fuel : Nat) (prev : Option Char) :
    subAux r fuel prev [] = [] := by
  cases fuel <;> rfl

theorem subAux_matchCase {r : Rule} {c : Char} {cs : List Char} {n fuel : Nat}
    {prev : Option Char} (hm : matchLen r (c :: cs) = some n) (hbb : bb prev = true) :
    subAux r (fuel + 1) prev (c :: cs)
      = r.repl ++ subAux r fuel (prevAfter prev (c :: cs) n) ((c :: cs).drop n) := by
  simp [subAux, hm, hbb]

theorem subAux_keepCase {r : Rule} {c : Char} {cs : List Char} {fuel : Nat}
    {prev : Option Char} (hk : matchLen r (c :: cs) = none ∨ bb prev = false) :
    subAux r (fuel + 1) prev (c :: cs) = c :: subAux r fuel (some c) cs := by
  rcases hk with hk | hk
  · simp [subAux, hk]
  · cases hm : matchLen r (c :: cs) <;> simp [subAux, hm, hk]

theorem hasM_cons_false {r : Rule} {prev : Option Char} {c : Char} {cs : List Char}
    (h : hasM r prev (c :: cs) = false) :
    (bb prev && (matchLen r (c :: cs)).isSome) = false ∧ hasM r (some c) cs = false := by
  simp only [hasM] at h
  exact Bool.or_eq_false_iff.mp h

/-- A text without a match is left unchanged by the substitution (any fuel). -/
theorem noMatch_sub {r : Rule} : ∀ (fuel : Nat) (prev : Option Char) (l : List Char),
    hasM r prev l = false → subAux r fuel prev l = l := by
  intro fuel
  induction fuel with
  | zero => intro prev l _; cases l <;> rfl
  | succ fuel ih =>
      intro prev l h
      cases l with
      | nil => rfl
      | cons c cs =>
          obtain ⟨h1, h2⟩ := hasM_cons_false h
          have hkeep : matchLen r (c :: cs) = none ∨ bb prev = false := by
            by_cases hbb : bb prev = true
            · rw [hbb, Bool.true_and] at h1
              cases hm : matchLen r (c :: cs) with
              | none => exact Or.inl rfl
              | some n => rw [hm] at h1; cases h1
            · exact Or.inr (by simpa using hbb)
          rw [subAux_keepCase hkeep, ih (some c) cs h2]

theorem hasM_prev_word {r : Rule} {w : Char} {l : List Char} {p : Option Char}
    (hw : wordChar w = true) (h : hasM r p l = false) : hasM r (some w) l = false := by
  cases l with
  | nil => rfl
  | cons c cs =>
      obtain ⟨-, h2⟩ := hasM_cons_false h
      simp only [hasM, h2, Bool.or_false, bb, hw]
      simp

theorem prevAfter_zero (prev : Option Char) (l : List Char) : prevAfter prev l 0 = prev := by
  simp [prevAfter]

theorem prevAfter_cons (prev : Option Char) (c : Char) (cs : List Char) (n : Nat) :
    prevAfter prev (c :: cs) (n + 1) = prevAfter (some c) cs n := by
  unfold prevAfter
  rw [List.take_succ_cons]
  cases h : cs.take n with
  | nil => simp [h]
  | cons d ds =>
      rw [List.getLast?_cons_cons]
      cases hg : (d :: ds).getLast? with
      | some x => simp [hg]
      | none => simp at hg

/-- No match anywhere implies no match anywhere in any suffix (with the
matching look-behind character). -/
theorem hasM_drop {r : Rule} : ∀ (n : Nat) (prev : Option Char) (l : List Char),
    hasM r prev l = false → hasM r (prevAfter prev l n) (l.drop n) = false := by
  intro n
  induction n with
  | zero =>
      intro prev l h
      rw [prevAfter_zero]
      simpa using h
  | succ n ih =>
      intro prev l h
      cases l with
      | nil => cases n <;> rfl
      | cons c cs =>
          rw [prevAfter_cons, List.drop_succ_cons]
          exact ih (some c) cs (hasM_cons_false h).2

theorem prevAfterL_cons (prev : Option Char) (c : Char) (u : List Char) :
    prevAfterL prev (c :: u) = prevAfterL (some c) u := by
  unfold prevAfterL
  cases h : u.getLast? with
  | some d => simp [List.getLast?_cons, h, Option.or]
  | none =>
      have : u = [] := by
        cases u with
        | nil => rfl
        | cons x xs => simp [List.getLast?_cons] at h
      subst this
      rfl

/-- Positional characterization of `hasM`. -/
theorem hasM_true_iff {r : Rule} : ∀ {prev : Option Char} {l : List Char},
    hasM r prev l = true ↔
      ∃ u v, l = u ++ v ∧ bb (prevAfterL prev u) = true ∧ (matchLen r v).isSome = true := by
  intro prev l
  induction l generalizing prev with
  | nil =>
      simp only [hasM]
      constructor
      · intro h; cases h
      · rintro ⟨u, v, happ, -, hml⟩
        rcases List.append_eq_nil.mp happ.symm with ⟨rfl, rfl⟩
        rw [matchLen_nil] at hml
        cases hml
  | cons c cs ih =>
      simp only [hasM, Bool.or_eq_true]
      constructor
      · rintro (h | h)
        · rw [Bool.and_eq_true] at h
          exact ⟨[], c :: cs, rfl, by simpa [prevAfterL] using h.1, h.2⟩
        · obtain ⟨u, v, happ, hbb, hml⟩ := ih.mp h
          exact ⟨c :: u, v, by simp [happ], by rwa [prevAfterL_cons], hml⟩
      · rintro ⟨u, v, happ, hbb, hml⟩
        cases u with
        | nil =>
            simp only [List.nil_append] at happ
            subst happ
            exact Or.inl (by simp [prevAfterL] at hbb; simp [hbb, hml])
        | cons c2 u2 =>
            simp only [List.cons_append, List.cons.injEq] at happ
            obtain ⟨rfl, happ2⟩ := happ
            exact Or.inr (ih.mpr ⟨u2, v, happ2, by rwa [prevAfterL_cons] at hbb, hml⟩)

theorem PairCond.unpack {ri rj : Rule} (h : PairCond ri rj = true) :
    afB ri.pat rj.repl = true ∧ innerOKB ri.pat rj.repl = true ∧ headWordB rj.repl = true
    ∧ lastWordB rj.repl = true ∧ headWordB rj.pat = true ∧ ri.optDot = false
    ∧ rj.optDot = false ∧ ri.pat.isEmpty = false ∧ rj.pat.isEmpty = false := by
  unfold PairCond at h
  simp only [Bool.and_eq_true, Bool.not_eq_true'] at h
  tauto

theorem headWordB_elim {l : List Char} (h : headWordB l = true) :
    ∃ c cs, l = c :: cs ∧ wordChar c = true := by
  cases l with
  | nil => cases h
  | cons c cs => exact ⟨c, cs, rfl, h⟩

theorem lastWordB_elim {l : List Char} (h : lastWordB l = true) :
    ∃ c, l.getLast? = some c ∧ wordChar c = true := by
  unfold lastWordB at h
  cases hg : l.getLast? with
  | none => rw [hg] at h; cases h
  | some c => rw [hg] at h; exact ⟨c, rfl, h⟩

theorem afB_cons {a : Char} {ps repl : List Char} (h : afB (a :: ps) repl = true) :
    agreeB (a :: ps) (lcL repl) = false ∧ afB ps repl = true := by
  simp only [afB, Bool.and_eq_true, Bool.not_eq_true'] at h
  exact h

/-- The first character of a matched region is a word character (when the
pattern starts with one). -/
theorem matchLen_head_word {r : Rule} {c : Char} {cs : List Char} {n : Nat}
    (hm : matchLen r (c :: cs) = some n) (hh : headWordB r.pat = true) :
    wordChar c = true := by
  have hmp : matchPat r.pat (c :: cs) = true :=
    matchLen_isSome_matchPat (by rw [hm]; rfl)
  obtain ⟨a, ps, hpat, hwa⟩ := headWordB_elim hh
  rw [hpat] at hmp
  obtain ⟨hlc, -⟩ := matchPat_head hmp
  rw [← wordChar_lc c, hlc]
  exact hwa

/-- Substitution does not change the word-boundary status at the start of the
text (the head either stays or becomes the replacement head, and both the
pattern head and the replacement head are word characters). -/
theorem bAfter_subAux {rj : Rule} (hh : headWordB rj.repl = true)
    (hp : headWordB rj.pat = true) (lastc : Char) (fuel : Nat) (prev : Option Char)
    (l : List Char) : bAfter lastc (subAux rj fuel prev l) = bAfter lastc l := by
  cases l with
  | nil => rw [subAux_nil]
  | cons c cs =>
      cases fuel with
      | zero => rfl
      | succ fuel =>
          by_cases hbb : bb prev = true
          · cases hm : matchLen rj (c :: cs) with
            | some n =>
                rw [subAux_matchCase hm hbb]
                obtain ⟨rh, rrest, hrepl, hwrh⟩ := headWordB_elim hh
                have hwc : wordChar c = true := matchLen_head_word hm hp
                rw [hrepl]
                show (wordChar lastc != wordChar rh) = (wordChar lastc != wordChar c)
                rw [hwrh, hwc]
            | none => rw [subAux_keepCase (Or.inl hm)]; rfl
          · rw [subAux_keepCase (Or.inr (by simpa using hbb))]; rfl

/-- Central transfer lemma: a pattern-suffix match (with its final word
boundary) found in the substituted text was already present in the original
text, provided no suffix of the pattern agrees with the replacement. -/
theorem matchPat_transfer {ri rj : Rule} (hcond : PairCond ri rj = true) (lastc : Char) :
    ∀ (fuel : Nat) (l : List Char) (prev : Option Char) (p : List Char),
      l.length ≤ fuel → afB p rj.repl = true →
      (matchPat p (subAux rj fuel prev l) = true ∧
        bAfter lastc ((subAux rj fuel prev l).drop p.length) = true) →
      matchPat p l = true ∧ bAfter lastc (l.drop p.length) = true := by
  obtain ⟨-, -, hhrepl, -, hhpat, -, -, -, -⟩ := PairCond.unpack hcond
  intro fuel
  induction fuel with
  | zero =>
      intro l prev p hlen hafp hout
      have hl : l = [] := by
        cases l with
        | nil => rfl
        | cons a b => simp at hlen
      subst hl
      rwa [subAux_nil] at hout
  | succ fuel ih =>
      intro l prev p hlen hafp hout
      cases l with
      | nil => rwa [subAux_nil] at hout
      | cons c cs =>
          cases p with
          | nil =>
              refine ⟨rfl, ?_⟩
              have hba := bAfter_subAux hhrepl hhpat lastc (fuel + 1) prev (c :: cs)
              have h2 := hout.2
              simp only [List.length_nil, List.drop_zero] at h2 ⊢
              rwa [hba] at h2
          | cons a ps =>
              by_cases hbb : bb prev = true
              · cases hm : matchLen rj (c :: cs) with
                | some n =>
                    exfalso
                    rw [subAux_matchCase hm hbb] at hout
                    have hag : agreeB (a :: ps) (lcL rj.repl) = false := (afB_cons hafp).1
                    have hblock := agreeBlock
                      (subAux rj fuel (prevAfter prev (c :: cs) n) ((c :: cs).drop n)) hag
                    rw [hblock] at hout
                    cases hout.1
                | none =>
                    rw [subAux_keepCase (Or.inl hm)] at hout
                    obtain ⟨h1, h2⟩ := hout
                    obtain ⟨hlc, hm2⟩ := matchPat_head h1
                    rw [show ((c :: subAux rj fuel (some c) cs).drop (a :: ps).length)
                        = (subAux rj fuel (some c) cs).drop ps.length from by simp] at h2
                    have hrec := ih cs (some c) ps (by simp at hlen; omega)
                      (afB_cons hafp).2 ⟨hm2, h2⟩
                    refine ⟨by simp [matchPat, hlc, hrec.1], ?_⟩
                    rw [show ((c :: cs).drop (a :: ps).length) = cs.drop ps.length from by simp]
                    exact hrec.2
              · rw [subAux_keepCase (Or.inr (by simpa using hbb))] at hout
                obtain ⟨h1, h2⟩ := hout
                obtain ⟨hlc, hm2⟩ := matchPat_head h1
                rw [show ((c :: subAux rj fuel (some c) cs).drop (a :: ps).length)
                    = (subAux rj fuel (some c) cs).drop ps.length from by simp] at h2
                have hrec := ih cs (some c) ps (by simp at hlen; omega)
                  (afB_cons hafp).2 ⟨hm2, h2⟩
                refine ⟨by simp [matchPat, hlc, hrec.1], ?_⟩
                rw [show ((c :: cs).drop (a :: ps).length) = cs.drop ps.length from by simp]
                exact hrec.2

/-- Substitution of `rj` cannot create a match of `ri` at the current
position. -/
theorem matchLen_transfer {ri rj : Rule} (hcond : PairCond ri rj = true) :
    ∀ (fuel : Nat) (l : List Char) (prev : Option Char),
      l.length ≤ fuel → (matchLen ri l).isSome = false →
      (matchLen ri (subAux rj fuel prev l)).isSome = false := by
  obtain ⟨haf, -, -, -, -, hod1, -, hne1, -⟩ := PairCond.unpack hcond
  intro fuel l prev hlen hml
  obtain ⟨lastc, hg⟩ : ∃ lastc, ri.pat.getLast? = some lastc := by
    cases hg : ri.pat.getLast? with
    | some lastc => exact ⟨lastc, rfl⟩
    | none =>
        rw [List.getLast?_eq_none_iff] at hg
        rw [hg] at hne1
        cases hne1
  rw [matchLen_isSome_eq hod1 hg] at hml ⊢
  by_cases ho : (matchPat ri.pat (subAux rj fuel prev l)
      && bAfter lastc ((subAux rj fuel prev l).drop ri.pat.length)) = true
  · exfalso
    rw [Bool.and_eq_true] at ho
    have := matchPat_transfer hcond lastc fuel l prev ri.pat hlen haf ⟨ho.1, ho.2⟩
    rw [this.1, this.2] at hml
    cases hml
  · simpa using ho

theorem isSome_false_of_matchPat_false {r : Rule} {l : List Char}
    (h : matchPat r.pat l = false) : (matchLen r l).isSome = false := by
  by_cases hh : (matchLen r l).isSome = true
  · rw [matchLen_isSome_matchPat hh] at h; cases h
  · simpa using hh

/-- No match of `ri` can start inside (or at the start of) a copy of the
replacement of `rj`: the conditions exclude every boundary-and-spelling
combination. -/
theorem hasM_repl {ri rj : Rule} (hcond : PairCond ri rj = true)
    {T : List Char} {lastR : Char} (hlastR : rj.repl.getLast? = some lastR)
    (hT : hasM ri (some lastR) T = false) :
    ∀ (w : List Char) (p : Option Char),
      (w = rj.repl ∨ ∃ x a, rj.repl = x ++ a :: w ∧ p = some a) →
      hasM ri p (w ++ T) = false := by
  obtain ⟨haf, hinner, hhrepl, -, -, -, -, hne1, -⟩ := PairCond.unpack hcond
  intro w
  induction w with
  | nil =>
      intro p hinv
      rcases hinv with hinv | ⟨x, a, hx, rfl⟩
      · exfalso
        rw [← hinv] at hhrepl
        cases hhrepl
      · have hga : rj.repl.getLast? = some a := by rw [hx]; simp
        rw [hlastR] at hga
        injection hga with hga
        subst hga
        simpa using hT
  | cons d ws ih =>
      intro p hinv
      show hasM ri p (d :: (ws ++ T)) = false
      simp only [hasM]
      rw [Bool.or_eq_false_iff]
      constructor
      · rcases hinv with hinv | ⟨x, a, hx, rfl⟩
        · obtain ⟨b, qs, hpat⟩ : ∃ b qs, ri.pat = b :: qs := by
            cases hq : ri.pat with
            | nil => rw [hq] at hne1; cases hne1
            | cons b qs => exact ⟨b, qs, rfl⟩
          have hag : agreeB ri.pat (lcL rj.repl) = false := by
            rw [hpat]
            have := afB_cons (by rwa [hpat] at haf)
            exact this.1
          rw [← hinv] at hag
          have hblock : matchPat ri.pat (d :: (ws ++ T)) = false := agreeBlock T hag
          rw [isSome_false_of_matchPat_false hblock]
          simp
        · have hacc := innerOK_access hinner x a (d :: ws) hx
          rw [Bool.or_eq_true] at hacc
          rcases hacc with hwa | hna
          · simp [bb, hwa]
          · have hag : agreeB ri.pat (lcL (d :: ws)) = false := by
              simpa using hna
            have hblock : matchPat ri.pat (d :: (ws ++ T)) = false := agreeBlock T hag
            rw [isSome_false_of_matchPat_false hblock]
            simp
      · apply ih
        rcases hinv with hinv | ⟨x, a, hx, rfl⟩
        · exact Or.inr ⟨[], d, by rw [← hinv]; rfl, rfl⟩
        · exact Or.inr ⟨x ++ [a], d, by rw [hx]; simp, rfl⟩

/-- Substituting `rj` preserves the absence of `ri`-matches. -/
theorem lift_noMatch {ri rj : Rule} (hcond : PairCond ri rj = true) :
    ∀ (fuel : Nat) (l : List Char) (prev : Option Char),
      l.length ≤ fuel → hasM ri prev l = false →
      hasM ri prev (subAux rj fuel prev l) = false := by
  obtain ⟨-, -, -, hlrepl, -, -, -, -, -⟩ := PairCond.unpack hcond
  obtain ⟨lastR, hgR, hwR⟩ := lastWordB_elim hlrepl
  intro fuel
  induction fuel with
  | zero =>
      intro l prev hlen h
      have hl : l = [] := by
        cases l with
        | nil => rfl
        | cons a b => simp at hlen
      subst hl
      rwa [subAux_nil]
  | succ fuel ih =>
      intro l prev hlen h
      cases l with
      | nil => rw [subAux_nil]; rfl
      | cons c cs =>
          obtain ⟨h1, h2⟩ := hasM_cons_false h
          by_cases hbb : bb prev = true
          · cases hm : matchLen rj (c :: cs) with
            | some n =>
                rw [subAux_matchCase hm hbb]
                have hdrop : hasM ri (prevAfter prev (c :: cs) n) ((c :: cs).drop n) = false :=
                  hasM_drop n prev (c :: cs) h
                have hlen2 : ((c :: cs).drop n).length ≤ fuel := by
                  have hpos := matchLen_pos hm
                  simp only [List.length_drop, List.length_cons] at *
                  omega
                have hTfull := ih ((c :: cs).drop n) (prevAfter prev (c :: cs) n) hlen2 hdrop
                have hTw := hasM_prev_word hwR hTfull
                exact hasM_repl hcond hgR hTw rj.repl prev (Or.inl rfl)
            | none =>
                rw [subAux_keepCase (Or.inl hm)]
                show hasM ri prev (c :: subAux rj fuel (some c) cs) = false
                simp only [hasM]
                rw [Bool.or_eq_false_iff]
                constructor
                · have hml : (matchLen ri (c :: cs)).isSome = false := by
                    rw [hbb, Bool.true_and] at h1
                    exact h1
                  have htr := matchLen_transfer hcond (fuel + 1) (c :: cs) prev hlen hml
                  rw [subAux_keepCase (Or.inl hm)] at htr
                  rw [htr]
                  simp
                · exact ih cs (some c) (by simp at hlen; omega) h2
          · have hbf : bb prev = false := by simpa using hbb
            rw [subAux_keepCase (Or.inr hbf)]
            show hasM ri prev (c :: subAux rj fuel (some c) cs) = false
            simp only [hasM]
            rw [Bool.or_eq_false_iff]
            refine ⟨by rw [hbf]; simp, ih cs (some c) (by simp at hlen; omega) h2⟩

/-- After substituting `r` itself, no `r`-match remains. -/
theorem self_noMatch {r : Rule} (hcond : PairCond r r = true) :
    ∀ (fuel : Nat) (l : List Char) (prev : Option Char),
      l.length ≤ fuel → hasM r prev (subAux r fuel prev l) = false := by
  obtain ⟨-, -, -, hlrepl, -, -, -, -, -⟩ := PairCond.unpack hcond
  obtain ⟨lastR, hgR, hwR⟩ := lastWordB_elim hlrepl
  intro fuel
  induction fuel with
  | zero =>
      intro l prev hlen
      have hl : l = [] := by
        cases l with
        | nil => rfl
        | cons a b => simp at hlen
      subst hl
      rw [subAux_nil]
      rfl
  | succ fuel ih =>
      intro l prev hlen
      cases l with
      | nil => rw [subAux_nil]; rfl
      | cons c cs =>
          by_cases hbb : bb prev = true
          · cases hm : matchLen r (c :: cs) with
            | some n =>
                rw [subAux_matchCase hm hbb]
                have hlen2 : ((c :: cs).drop n).length ≤ fuel := by
                  have hpos := matchLen_pos hm
                  simp only [List.length_drop, List.length_cons] at *
                  omega
                have hTfull := ih ((c :: cs).drop n) (prevAfter prev (c :: cs) n) hlen2
                have hTw := hasM_prev_word hwR hTfull
                exact hasM_repl hcond hgR hTw r.repl prev (Or.inl rfl)
            | none =>
                rw [subAux_keepCase (Or.inl hm)]
                show hasM r prev (c :: subAux r fuel (some c) cs) = false
                simp only [hasM]
                rw [Bool.or_eq_false_iff]
                constructor
                · have hml : (matchLen r (c :: cs)).isSome = false := by rw [hm]; rfl
                  have htr := matchLen_transfer hcond (fuel + 1) (c :: cs) prev hlen hml
                  rw [subAux_keepCase (Or.inl hm)] at htr
                  rw [htr]
                  simp
                · exact ih cs (some c) (by simp at hlen; omega)
          · have hbf : bb prev = false := by simpa using hbb
            rw [subAux_keepCase (Or.inr hbf)]
            show hasM r prev (c :: subAux r fuel (some c) cs) = false
            simp only [hasM]
            rw [Bool.or_eq_false_iff]
            constructor
            · rw [hbf]; simp
            · exact ih cs (some c) (by simp at hlen; omega)

/-- Any match of a long `\.?`-rule whose pattern embeds `" guarantee "`
contains a `\b`-bounded match of `rule3` at the embedded position. -/
theorem long_rule_implies_rule3 {rr : Rule} (pre : List Char)
    (hpat : rr.pat = pre
      ++ (("guarantee").data ++ (" an outcome until the team verifies the details").data))
    (hpre : pre.getLast? = some ' ') :
    ∀ {prev : Option Char} {l : List Char},
      hasM rr prev l = true → hasM rule3 prev l = true := by
  intro prev l h
  obtain ⟨u, v, happ, hbb, hml⟩ := hasM_true_iff.mp h
  have hmp : matchPat rr.pat v = true := matchLen_isSome_matchPat hml
  obtain ⟨w, rest, hv, hlcw⟩ := matchPat_split hmp
  rw [hpat] at hlcw
  obtain ⟨w1, w23, hw, hw1, hw23⟩ := List.map_eq_append_iff.mp hlcw
  obtain ⟨w2, w3, hw23e, hw2, hw3⟩ := List.map_eq_append_iff.mp hw23
  apply hasM_true_iff.mpr
  refine ⟨u ++ w1, w2 ++ (w3 ++ rest), ?_, ?_, ?_⟩
  · rw [happ, hv, hw, hw23e]
    simp [List.append_assoc]
  · obtain ⟨c1, hglast, hlc1⟩ : ∃ c1, w1.getLast? = some c1 ∧ lc c1 = ' ' := by
      have hh := congrArg List.getLast? hw1
      rw [List.getLast?_map, hpre] at hh
      cases hg : w1.getLast? with
      | none => rw [hg] at hh; cases hh
      | some c1 =>
          rw [hg] at hh
          have hh2 : some (lc c1) = some ' ' := hh
          injection hh2 with hh3
          exact ⟨c1, rfl, hh3⟩
    have hgl : (u ++ w1).getLast? = some c1 := by
      rw [List.getLast?_append, hglast]
      rfl
    unfold prevAfterL
    rw [hgl]
    show (!wordChar c1) = true
    rw [← wordChar_lc c1, hlc1]
    rfl
  · have hmp3 : matchPat ("guarantee").data (w2 ++ (w3 ++ rest)) = true :=
      lcL_matchPat _ hw2
    obtain ⟨h3, t3, rfl, hlch3⟩ : ∃ h3 t3, w3 = h3 :: t3 ∧ lc h3 = ' ' := by
      cases w3 with
      | nil =>
          exfalso
          have hnil : (" an outcome until the team verifies the details").data
              = ([] : List Char) := hw3.symm
          exact absurd hnil (by decide)
      | cons h3 t3 =>
          refine ⟨h3, t3, rfl, ?_⟩
          have hinj : lc h3 :: List.map lc t3
              = ' ' :: ("an outcome until the team verifies the details").data := hw3
          injection hinj with h5
    rw [matchLen_isSome_eq (rfl : rule3.optDot = false)
      (show rule3.pat.getLast? = some 'e' from rfl), Bool.and_eq_true]
    constructor
    · exact hmp3
    · have h9 : rule3.pat.length = w2.length := by
        have hlen2 := congrArg List.length hw2
        simp only [List.length_map] at hlen2
        rw [hlen2]
        rfl
      rw [h9, List.drop_left]
      show (wordChar 'e' != wordChar h3) = true
      rw [← wordChar_lc h3, hlch3]
      rfl

theorem subRe_id {r : Rule} {l : List Char} (h : hasM r none l = false) : subRe r l = l :=
  noMatch_sub l.length none l h

theorem lift_subRe {ri rj : Rule} (hcond : PairCond ri rj = true) {l : List Char}
    (h : hasM ri none l = false) : hasM ri none (subRe rj l) = false :=
  lift_noMatch hcond l.length l none le_rfl h

theorem self_subRe {r : Rule} (hcond : PairCond r r = true) (l : List Char) :
    hasM r none (subRe r l) = false :=
  self_noMatch hcond l.length l none le_rfl

theorem soften_unfold (s : List Char) :
    soften_guarantees s = subRe rule8 (subRe rule7 (subRe rule6 (subRe rule5 (subRe rule4
      (subRe rule3 (subRe rule2 (subRe rule1 s))))))) := by
  simp only [soften_guarantees, softenRules, List.foldl]

theorem noMatch3_soften (s : List Char) : hasM rule3 none (soften_guarantees s) = false := by
  rw [soften_unfold]
  exact lift_subRe (by decide) (lift_subRe (by decide) (lift_subRe (by decide)
    (lift_subRe (by decide) (lift_subRe (by decide) (self_subRe (by decide) _)))))

theorem noMatch4_soften (s : List Char) : hasM rule4 none (soften_guarantees s) = false := by
  rw [soften_unfold]
  exact lift_subRe (by decide) (lift_subRe (by decide) (lift_subRe (by decide)
    (lift_subRe (by decide) (self_subRe (by decide) _))))

theorem noMatch5_soften (s : List Char) : hasM rule5 none (soften_guarantees s) = false := by
  rw [soften_unfold]
  exact lift_subRe (by decide) (lift_subRe (by decide) (lift_subRe (by decide)
    (self_subRe (by decide) _)))

theorem noMatch6_soften (s : List Char) : hasM rule6 none (soften_guarantees s) = false := by
  rw [soften_unfold]
  exact lift_subRe (by decide) (lift_subRe (by decide) (self_subRe (by decide) _))

theorem noMatch7_soften (s : List Char) : hasM rule7 none (soften_guarantees s) = false := by
  rw [soften_unfold]
  exact lift_subRe (by decide) (self_subRe (by decide) _)

theorem noMatch8_soften (s : List Char) : hasM rule8 none (soften_guarantees s) = false := by
  rw [soften_unfold]
  exact self_subRe (by decide) _

theorem noMatch1_soften (s : List Char) : hasM rule1 none (soften_guarantees s) = false := by
  cases hh : hasM rule1 none (soften_guarantees s) with
  | false => rfl
  | true =>
      have h3t := long_rule_implies_rule3 ("i cannot ").data rfl rfl hh
      have h3f := noMatch3_soften s
      rw [h3f] at h3t
      cases h3t

theorem noMatch2_soften (s : List Char) : hasM rule2 none (soften_guarantees s) = false := by
  cases hh : hasM rule2 none (soften_guarantees s) with
  | false => rfl
  | true =>
      have h3t := long_rule_implies_rule3 (("i can").data ++ [apos] ++ ("t ").data) rfl rfl hh
      have h3f := noMatch3_soften s
      rw [h3f] at h3t
      cases h3t

/-! # Supporting lemmas for the normalization claims -/

theorem NA_ne_nil : NA ≠ [] := by decide

theorem NAlist_ne_nil : ([NA] : List (List Char)) ≠ [] := by decide

theorem ite_strip_ne_nil (t : List Char) : (if t.isEmpty then NA else t) ≠ [] := by
  by_cases h : t.isEmpty = true
  · rw [if_pos h]; exact NA_ne_nil
  · rw [if_neg h]
    intro hc
    exact h (by simp [hc])

theorem ite_isEmpty_ne_nil (l d : List (List Char)) (hd : d ≠ []) :
    (if l.isEmpty then d else l) ≠ [] := by
  by_cases h : l.isEmpty = true
  · rw [if_pos h]; exact hd
  · rw [if_neg h]
    intro hc
    exact h (by simp [hc])

theorem strcase_ne_nil (c : List Char) : (if c.isEmpty then [NA] else [c]) ≠ ([] : List (List Char)) := by
  by_cases h : c.isEmpty = true
  · rw [if_pos h]; exact NAlist_ne_nil
  · rw [if_neg h]; simp

theorem normalize_text_fields_ne_nil (v : J) : normalize_text_fields v ≠ [] := by
  cases v with
  | null => exact NA_ne_nil
  | bool b => exact ite_strip_ne_nil _
  | int n => exact ite_strip_ne_nil _
  | float lex => exact ite_strip_ne_nil _
  | str s => exact ite_strip_ne_nil _
  | arr xs => exact ite_strip_ne_nil _
  | obj kvs => exact ite_strip_ne_nil _

theorem normalize_missing_ne_nil (v : J) : normalize_missing_information v ≠ [] := by
  cases v with
  | null => exact NAlist_ne_nil
  | str s => exact strcase_ne_nil _
  | arr xs => exact ite_isEmpty_ne_nil _ _ NAlist_ne_nil
  | bool b => exact NAlist_ne_nil
  | int n => exact NAlist_ne_nil
  | float lex => exact NAlist_ne_nil
  | obj kvs => exact NAlist_ne_nil

theorem mem_NAlist_ne_nil {m : List Char} (hm : m ∈ ([NA] : List (List Char))) : m ≠ [] := by
  simp only [List.mem_singleton] at hm
  subst hm
  exact NA_ne_nil

theorem normalize_missing_mem_ne_nil (v : J) :
    ∀ m ∈ normalize_missing_information v, m ≠ [] := by
  cases v with
  | null => intro m hm; exact mem_NAlist_ne_nil hm
  | str s =>
      intro m hm
      change m ∈ (if (pyStrip s).isEmpty then [NA] else [pyStrip s]) at hm
      by_cases h : (pyStrip s).isEmpty = true
      · rw [if_pos h] at hm; exact mem_NAlist_ne_nil hm
      · rw [if_neg h] at hm
        simp only [List.mem_singleton] at hm
        subst hm
        intro hc; exact h (by simp [hc])
  | arr xs =>
      intro m hm
      change m ∈ (if (xs.filterMap (fun x =>
          let t := pyStrip (pyStr x)
          if t.isEmpty then none else some t)).isEmpty then [NA]
        else xs.filterMap (fun x =>
          let t := pyStrip (pyStr x)
          if t.isEmpty then none else some t)) at hm
      by_cases h : (xs.filterMap (fun x =>
          let t := pyStrip (pyStr x)
          if t.isEmpty then none else some t)).isEmpty = true
      · rw [if_pos h] at hm; exact mem_NAlist_ne_nil hm
      · rw [if_neg h] at hm
        rcases List.mem_filterMap.mp hm with ⟨x, -, hfx⟩
        dsimp only at hfx
        by_cases hx : (pyStrip (pyStr x)).isEmpty = true
        · rw [if_pos hx] at hfx; exact absurd hfx (by simp)
        · rw [if_neg hx] at hfx
          injection hfx with hfx2
          subst hfx2
          intro hc; exact hx (by simp [hc])
  | bool b => intro m hm; exact mem_NAlist_ne_nil hm
  | int n => intro m hm; exact mem_NAlist_ne_nil hm
  | float lex => intro m hm; exact mem_NAlist_ne_nil hm
  | obj kvs => intro m hm; exact mem_NAlist_ne_nil hm

/-! # Claim C1 -/

/-- Claim C1: totality of the guardrail rewriter — for every draft reply
string (including empty/whitespace-only and all-risky drafts), every context
blob and every structured-facts record, `apply_guardrails` returns a
non-empty string. -/
theorem C1_apply_guardrails_total (reply ctx : List Char) (extracted : J) :
    apply_guardrails reply ctx extracted ≠ [] := by
  show (if (pyStrip reply).isEmpty then fallback1
        else if (remove_unverified_resolution_claims (soften_guarantees (pyStrip reply))
                  (combinedContext ctx extracted)).isEmpty then fallback2
        else remove_unverified_resolution_claims (soften_guarantees (pyStrip reply))
                  (combinedContext ctx extracted)) ≠ []
  by_cases h1 : (pyStrip reply).isEmpty = true
  · rw [if_pos h1]; decide
  · rw [if_neg h1]
    by_cases h2 : (remove_unverified_resolution_claims
        (soften_guarantees (pyStrip reply)) (combinedContext ctx extracted)).isEmpty = true
    · rw [if_pos h2]; decide
    · rw [if_neg h2]
      intro hc
      exact h2 (by simp [hc])

/-! # Claim C2 -/

/-- Claim C2: corroboration law — a sentence of the softened draft that
contains a risky marker is retained by the guardrail filter iff the combined
evidence blob (context concatenated with the rendering of the structured
facts) contains at least one marker of the fixed set, case-insensitively;
no per-marker correspondence is involved. -/
theorem C2_corroboration_law (draft ctx : List Char) (extracted : J) (s : List Char)
    (hs : s ∈ splitSentences (pyStrip (soften_guarantees draft)))
    (hr : riskyB s = true) :
    s ∈ retainedSentences (soften_guarantees draft) (combinedContext ctx extracted)
      ↔ evidenceHasMarker (combinedContext ctx extracted) = true := by
  unfold retainedSentences
  rw [List.mem_filter]
  constructor
  · rintro ⟨-, h⟩
    simpa [hr] using h
  · intro h
    exact ⟨hs, by simp [hr, h]⟩

/-- Witness for C2 at a concrete risky sentence with corroborating evidence. -/
theorem C2_corroboration_law_witness :
    ("We fixed it.").data ∈ splitSentences (pyStrip (soften_guarantees ("We fixed it. Ok.").data))
    ∧ riskyB ("We fixed it.").data = true
    ∧ (("We fixed it.").data ∈
        retainedSentences (soften_guarantees ("We fixed it. Ok.").data)
          (combinedContext ("user: we fixed it").data (J.obj []))
      ↔ evidenceHasMarker (combinedContext ("user: we fixed it").data (J.obj [])) = true) :=
  ⟨by decide, rfl,
   C2_corroboration_law ("We fixed it. Ok.").data ("user: we fixed it").data (J.obj [])
     ("We fixed it.").data (by decide) rfl⟩

/-! # Claim C5 -/

/-- Claim C5: idempotence of guarantee softening — applying the fixed ordered
rule table of `_soften_guarantees` twice yields the same result as applying
it once, for every string: after one pass no rule can match again (no rule
re-triggers on any replacement text, across all junction positions). -/
theorem C5_soften_guarantees_idempotent (s : List Char) :
    soften_guarantees (soften_guarantees s) = soften_guarantees s := by
  have e1 : subRe rule1 (soften_guarantees s) = soften_guarantees s :=
    subRe_id (noMatch1_soften s)
  have e2 : subRe rule2 (soften_guarantees s) = soften_guarantees s :=
    subRe_id (noMatch2_soften s)
  have e3 : subRe rule3 (soften_guarantees s) = soften_guarantees s :=
    subRe_id (noMatch3_soften s)
  have e4 : subRe rule4 (soften_guarantees s) = soften_guarantees s :=
    subRe_id (noMatch4_soften s)
  have e5 : subRe rule5 (soften_guarantees s) = soften_guarantees s :=
    subRe_id (noMatch5_soften s)
  have e6 : subRe rule6 (soften_guarantees s) = soften_guarantees s :=
    subRe_id (noMatch6_soften s)
  have e7 : subRe rule7 (soften_guarantees s) = soften_guarantees s :=
    subRe_id (noMatch7_soften s)
  have e8 : subRe rule8 (soften_guarantees s) = soften_guarantees s :=
    subRe_id (noMatch8_soften s)
  rw [soften_unfold (soften_guarantees s), e1, e2, e3, e4, e5, e6, e7, e8]

/-! # Claim C6 -/

/-- Claim C6: non-risky passthrough — a sentence of the (stripped) softened
text that contains no risky marker is always retained, the retained list is a
sublist of the sentence list (original relative order), and the guardrail
output is the retained sentences reassembled with single-space separators. -/
theorem C6_nonrisky_passthrough (text evid s : List Char)
    (hs : s ∈ splitSentences (pyStrip text)) (hr : riskyB s = false) :
    s ∈ retainedSentences text evid
    ∧ (retainedSentences text evid).Sublist (splitSentences (pyStrip text))
    ∧ remove_unverified_resolution_claims text evid
        = pyStrip (joinSpace (retainedSentences text evid)) :=
  ⟨List.mem_filter.mpr ⟨hs, by simp [hr]⟩, List.filter_sublist _, rfl⟩

/-- Witness for C6 at a concrete non-risky sentence. -/
theorem C6_nonrisky_passthrough_witness :
    ("Hello.").data ∈ splitSentences (pyStrip ("Hello. We fixed it.").data)
    ∧ riskyB ("Hello.").data = false
    ∧ ("Hello.").data ∈ retainedSentences ("Hello. We fixed it.").data [] :=
  ⟨by decide, rfl,
   (C6_nonrisky_passthrough ("Hello. We fixed it.").data [] ("Hello.").data (by decide) rfl).1⟩

/-- Claim C3 counterexample: at the scenario input with no corroborating
context, the guardrail output is the second fixed fallback message — the
entire draft is one sentence containing the risky marker, so nothing of the
softened draft is retained; in particular "definitely" (present in the
draft) is not replaced by "likely" in the output, nor do the other claimed
replacement texts appear. -/
theorem C3_scenario_counterexample :
    apply_guardrails c3draft [] (modelDump c3facts) = fallback2
    ∧ subIn ("definitely").data (lcL c3draft) = true
    ∧ subIn ("likely").data (lcL (apply_guardrails c3draft [] (modelDump c3facts))) = false
    ∧ subIn ("to the best of our assessment").data
        (lcL (apply_guardrails c3draft [] (modelDump c3facts))) = false
    ∧ subIn ("commit").data (lcL (apply_guardrails c3draft [] (modelDump c3facts))) = false :=
  ⟨rfl, rfl, rfl, rfl, rfl⟩

/-- Claim C3 (amended): softening replaces only "definitely"→"likely" in the
scenario draft (the `\b100%\b` pattern does not match before a space and
`\bguarantee\b` does not match inside "guaranteed"); the softened draft is a
single sentence containing the risky marker "refund has been issued", the
evidence blob contains no marker, so the whole sentence is dropped and the
output is the second fixed fallback message, which is non-empty. -/
theorem C3_scenario_amended :
    soften_guarantees c3draft
      = ("We have likely fixed the leak, 100% guaranteed, and the refund has been issued.").data
    ∧ splitSentences (pyStrip (soften_guarantees c3draft)) = [soften_guarantees c3draft]
    ∧ riskyB (soften_guarantees c3draft) = true
    ∧ evidenceHasMarker (combinedContext [] (modelDump c3facts)) = false
    ∧ apply_guardrails c3draft [] (modelDump c3facts) = fallback2
    ∧ fallback2 ≠ [] :=
  ⟨rfl, rfl, rfl, rfl, rfl, by decide⟩

/-- Claim C4 counterexample: on the spec scenario input the validation fails
with a missing-required-field error (pydantic `mode="before"` field
validators do not run for absent fields, and `location`, `trigger`,
`urgency` are required), instead of yielding the all-sentinel record. -/
theorem C4_normalization_counterexample :
    model_validate c4input = Except.error VErr.missingField := rfl

/-- Claim C4 (amended): validation is total over JSON objects that *contain*
the four scalar keys (with arbitrary values: null, blank, wrong types, empty
arrays); the result has non-empty scalar fields and a non-empty
`missing_information` list of non-empty strings (the `missing_information`
key itself may be absent, having a default).  A missing scalar key is the
one case that errors.  The amended scenario input, with all four scalar keys
present but null/blank, yields the all-sentinel record. -/
theorem C4_normalization_amended (kvs : List (List Char × J)) (v1 v2 v3 v4 : J)
    (h1 : lookupJ kvs ("issue_type").data = some v1)
    (h2 : lookupJ kvs ("location").data = some v2)
    (h3 : lookupJ kvs ("trigger").data = some v3)
    (h4 : lookupJ kvs ("urgency").data = some v4) :
    (∃ e : Extraction, model_validate (J.obj kvs) = Except.ok e
      ∧ e.issue_type ≠ [] ∧ e.location ≠ [] ∧ e.trigger ≠ [] ∧ e.urgency ≠ []
      ∧ e.missing_information ≠ []
      ∧ (∀ m ∈ e.missing_information, m ≠ []))
    ∧ model_validate c4inputAmended = Except.ok ⟨NA, NA, NA, NA, [NA]⟩ := by
  constructor
  · refine ⟨⟨normalize_text_fields v1, normalize_text_fields v2, normalize_text_fields v3,
        normalize_text_fields v4,
        (match lookupJ kvs ("missing_information").data with
         | some m => normalize_missing_information m
         | none => [NA])⟩, ?_, normalize_text_fields_ne_nil v1, normalize_text_fields_ne_nil v2,
        normalize_text_fields_ne_nil v3, normalize_text_fields_ne_nil v4, ?_, ?_⟩
    · unfold model_validate
      dsimp only
      rw [h1, h2, h3, h4]
    · cases hm : lookupJ kvs ("missing_information").data with
      | some m => simp only [hm]; exact normalize_missing_ne_nil m
      | none => simp only [hm]; exact NAlist_ne_nil
    · cases hm : lookupJ kvs ("missing_information").data with
      | some m => simp only [hm]; exact normalize_missing_mem_ne_nil m
      | none => simp only [hm]
                intro m hmm
                exact mem_NAlist_ne_nil hmm
  · rfl

/-- Witness for C4 (amended) at a concrete wrong-typed input. -/
theorem C4_normalization_amended_witness :
    lookupJ [(("issue_type").data, J.int 7), (("location").data, J.arr []),
             (("trigger").data, J.bool true), (("urgency").data, J.str (" high ").data)]
        ("issue_type").data = some (J.int 7)
    ∧ (∃ e : Extraction,
        model_validate (J.obj [(("issue_type").data, J.int 7), (("location").data, J.arr []),
          (("trigger").data, J.bool true), (("urgency").data, J.str (" high ").data)])
          = Except.ok e
        ∧ e.issue_type ≠ [] ∧ e.location ≠ [] ∧ e.trigger ≠ [] ∧ e.urgency ≠ []
        ∧ e.missing_information ≠ []
        ∧ (∀ m ∈ e.missing_information, m ≠ [])) :=
  ⟨rfl,
   (C4_normalization_amended
      [(("issue_type").data, J.int 7), (("location").data, J.arr []),
       (("trigger").data, J.bool true), (("urgency").data, J.str (" high ").data)]
      (J.int 7) (J.arr []) (J.bool true) (J.str (" high ").data)
      rfl rfl rfl rfl).1⟩

/-! # Claim C7 -/

/-- Claim C7: history bounding — when the sanitized history has more than 10
valid turns, the orchestrator retains exactly the last 10, in original
relative order (a suffix of the sanitized sequence); malformed records were
already discarded by the (total) sanitizer. -/
theorem C7_history_bounding (h : List J) (hl : 10 < (sanitizeHistory h).length) :
    lastN 10 (sanitizeHistory h)
      = (sanitizeHistory h).drop ((sanitizeHistory h).length - 10)
    ∧ (lastN 10 (sanitizeHistory h)).length = 10
    ∧ (lastN 10 (sanitizeHistory h)) <:+ sanitizeHistory h := by
  refine ⟨rfl, ?_, List.drop_suffix _ _⟩
  simp only [lastN, List.length_drop]
  omega

/-- Witness for C7 at a concrete 11-valid-turn history. -/
theorem C7_history_bounding_witness :
    10 < (sanitizeHistory c7history).length
    ∧ (lastN 10 (sanitizeHistory c7history)).length = 10
    ∧ (lastN 10 (sanitizeHistory c7history)) <:+ sanitizeHistory c7history :=
  ⟨by decide, (C7_history_bounding c7history (by decide)).2.1,
   (C7_history_bounding c7history (by decide)).2.2⟩

/-! # Claim C9 -/

/-- Claim C9: malformed request rejection — when the latest message strips to
the empty string, `respond` rejects with the client-error category (mapped to
status 400) for *every* pair of model-call oracles, i.e. the outcome does not
depend on either model call (neither call is consulted) and no other outcome
is produced. -/
theorem C9_empty_message_rejected
    (callExtract : List Char → Except Unit (List Char))
    (callReply : List (List Char × List Char) → List Char → J → Except Unit (List Char))
    (req : ChatRequest) (hm : pyStrip req.message = []) :
    respond callExtract callReply req = Except.error RespErr.emptyMessage
    ∧ statusCode RespErr.emptyMessage = 400 := by
  constructor
  · unfold respond
    simp [hm]
  · rfl

/-- Witness for C9 at a whitespace-only message. -/
theorem C9_empty_message_rejected_witness :
    pyStrip (("  ").data) = []
    ∧ respond (fun _ => Except.error ()) (fun _ _ _ => Except.error ())
        ⟨[J.int 1], ("  ").data⟩ = Except.error RespErr.emptyMessage :=
  ⟨rfl,
   (C9_empty_message_rejected (fun _ => Except.error ()) (fun _ _ _ => Except.error ())
      ⟨[J.int 1], ("  ").data⟩ rfl).1⟩

theorem spanPhase_spec (raw : List Char) :
    (isOkB (spanPhase raw) = true ↔ isObjO (attemptSpanRaw raw) = true)
    ∧ (∀ j, spanPhase raw = Except.ok j →
        attemptSpanRaw raw = some j ∧ isObjJ j = true) := by
  cases hs : spanCandidate raw with
  | none =>
      refine ⟨by simp [spanPhase, attemptSpanRaw, hs, isObjO, isOkB], ?_⟩
      intro j hj
      simp [spanPhase, hs] at hj
  | some cand =>
      cases hc : jsonLoads cand with
      | none =>
          refine ⟨by simp [spanPhase, attemptSpanRaw, hs, hc, isObjO, isOkB], ?_⟩
          intro j hj
          simp [spanPhase, hs, hc] at hj
      | some w =>
          by_cases ho : isObjJ w = true
          · refine ⟨by simp [spanPhase, attemptSpanRaw, hs, hc, ho, isObjO, isOkB], ?_⟩
            intro j hj
            simp only [spanPhase, hs, hc, if_pos ho] at hj
            cases hj
            exact ⟨by simp [attemptSpanRaw, hs, hc], ho⟩
          · refine ⟨by simp [spanPhase, attemptSpanRaw, hs, hc, ho, isObjO, isOkB], ?_⟩
            intro j hj
            simp [spanPhase, hs, hc, if_neg ho] at hj

/-- Claim C8: JSON recovery — `_parse_json_object` first attempts a strict
parse of the full (stripped) response; on failure to obtain an object it
attempts the first-brace-to-last-brace substring; it raises an
`LLMServiceError` (the `ModelProtocolViolation` category) exactly when no
JSON object is recoverable by either attempt, and a success returns the
recovered object (the full-parse one taking precedence). -/
theorem C8_json_recovery (text : List Char) :
    (isOkB (parse_json_object text) = true ↔ recoverableB text = true)
    ∧ (∀ j, parse_json_object text = Except.ok j →
        isObjJ j = true ∧ (attemptFull text = some j ∨ attemptSpan text = some j))
    ∧ (∀ kvs, attemptFull text = some (J.obj kvs) →
        parse_json_object text = Except.ok (J.obj kvs)) := by
  cases hj : jsonLoads (pyStrip text) with
  | some v =>
    by_cases ho : isObjJ v = true
    · refine ⟨by simp [parse_json_object, recoverableB, attemptFull, hj, ho, isObjO, isOkB], ?_, ?_⟩
      · intro j hja
        simp only [parse_json_object, hj, if_pos ho] at hja
        cases hja
        exact ⟨ho, Or.inl (by simp [attemptFull, hj])⟩
      · intro kvs h2
        simp only [attemptFull, hj] at h2
        cases h2
        simp [parse_json_object, hj, ho]
    · have hsp := spanPhase_spec (pyStrip text)
      refine ⟨?_, ?_, ?_⟩
      · simp only [parse_json_object, hj, if_neg ho, recoverableB, attemptFull, attemptSpan,
          isObjO, ho]
        simpa [isObjO] using hsp.1
      · intro j hja
        simp only [parse_json_object, hj, if_neg ho] at hja
        rcases hsp.2 j hja with ⟨hsp1, hsp2⟩
        exact ⟨hsp2, Or.inr hsp1⟩
      · intro kvs h2
        simp only [attemptFull, hj] at h2
        cases h2
        simp [isObjJ] at ho
  | none =>
    have hsp := spanPhase_spec (pyStrip text)
    refine ⟨?_, ?_, ?_⟩
    · simp only [parse_json_object, hj, recoverableB, attemptFull, attemptSpan, isObjO]
      simpa [isObjO] using hsp.1
    · intro j hja
      simp only [parse_json_object, hj] at hja
      rcases hsp.2 j hja with ⟨hsp1, hsp2⟩
      exact ⟨hsp2, Or.inr hsp1⟩
    · intro kvs h2
      simp [attemptFull, hj] at h2

/-- Witness for C8 at concrete inputs: a non-JSON response (both conjuncts of
the recovery law evaluate) and a markdown-wrapped object whose full strict
parse succeeds. -/
theorem C8_json_recovery_witness :
    (isOkB (parse_json_object ("not json at all").data) = true
      ↔ recoverableB ("not json at all").data = true)
    ∧ attemptFull ("\x7b\"a\": 1\x7d").data = some (J.obj [(("a").data, J.int 1)])
    ∧ parse_json_object ("\x7b\"a\": 1\x7d").data = Except.ok (J.obj [(("a").data, J.int 1)]) :=
  ⟨(C8_json_recovery ("not json at all").data).1, rfl,
   (C8_json_recovery ("\x7b\"a\": 1\x7d").data).2.2 [(("a").data, J.int 1)] rfl⟩

/-- Claim C10 (implicit): a successful result of `_parse_json_object` is
always a JSON object; and when the full response parses as valid JSON of a
non-object type, the parser does not fail immediately but proceeds to the
brace-span phase, succeeding exactly when the span substring parses as a
JSON object. -/
theorem C10_nonobject_passthrough (text : List Char) :
    (∀ j, parse_json_object text = Except.ok j → isObjJ j = true)
    ∧ (∀ v, jsonLoads (pyStrip text) = some v → isObjJ v = false →
        parse_json_object text = spanPhase (pyStrip text)
        ∧ (isOkB (parse_json_object text) = true ↔ isObjO (attemptSpan text) = true)) := by
  constructor
  · intro j hja
    cases hj : jsonLoads (pyStrip text) with
    | some v =>
      by_cases ho : isObjJ v = true
      · simp only [parse_json_object, hj, if_pos ho] at hja
        cases hja
        exact ho
      · simp only [parse_json_object, hj, if_neg ho] at hja
        exact ((spanPhase_spec (pyStrip text)).2 j hja).2
    | none =>
      simp only [parse_json_object, hj] at hja
      exact ((spanPhase_spec (pyStrip text)).2 j hja).2
  · intro v hv hnv
    have heq : parse_json_object text = spanPhase (pyStrip text) := by
      simp [parse_json_object, hv, hnv]
    refine ⟨heq, ?_⟩
    rw [heq]
    exact (spanPhase_spec (pyStrip text)).1

/-- Witness for C10 at a concrete top-level array wrapping an object: the
full parse succeeds with a non-object, and the span recovery still yields
the inner object. -/
theorem C10_nonobject_passthrough_witness :
    jsonLoads (pyStrip ("[2, \x7b\"a\": 3\x7d]").data)
      = some (J.arr [J.int 2, J.obj [(("a").data, J.int 3)]])
    ∧ (parse_json_object ("[2, \x7b\"a\": 3\x7d]").data = spanPhase (pyStrip ("[2, \x7b\"a\": 3\x7d]").data)
        ∧ (isOkB (parse_json_object ("[2, \x7b\"a\": 3\x7d]").data) = true
            ↔ isObjO (attemptSpan ("[2, \x7b\"a\": 3\x7d]").data) = true))
    ∧ parse_json_object ("[2, \x7b\"a\": 3\x7d]").data = Except.ok (J.obj [(("a").data, J.int 3)]) :=
  ⟨rfl,
   (C10_nonobject_passthrough ("[2, \x7b\"a\": 3\x7d]").data).2
     (J.arr [J.int 2, J.obj [(("a").data, J.int 3)]]) rfl rfl,
   rfl⟩

end LeadAssist
